import Mathlib

/-!
Shallow embedding of the embedded-UI render-element adapter in
`src/utils/iced.rs` (the `IcedElement` type and its trait implementations).

Modelling conventions:

* `f64` scale factors and cursor coordinates are embedded as exact rationals
  (`ℚ`); the source compares scales by exact value (`OrderedFloat` keys), so
  rational equality mirrors the source's key equality.
* The `HashMap<OrderedFloat<f64>, (MemoryRenderBuffer, bool)>` of buffers is
  embedded as an association list `List (ℚ × RBuf)`; a `MemoryRenderBuffer`
  is abstracted to its allocated device dimensions, and the `bool` is the
  dirty (`needs_redraw`) flag.
* `smithay` outputs are compared by identity in the source; an `Output` here
  carries an identity tag and its current fractional scale.
* The iced runtime (`iced_native::program::State::update`) is an external
  collaborator: it is a parameter (`Oracle`) mapping the opaque program
  state, the queued events/messages, the logical size and the cursor
  position to a new program state and an optional list of command actions
  (`None` when the program was not updated), exactly the shape the source
  consumes via `.1.map(|command| command.actions())`.
* `Size::to_f64().to_buffer(scale, Transform::Normal).to_i32_round()` is
  component-wise multiplication by the scale followed by `f64::round`
  (round half away from zero), embedded as `i32Round`.
* Results of `update` carry ghost observables: `ran` (whether the iced
  update step executed) and `processed` (the queue handed to it); the
  render path carries `drew` (whether the rasterization closure ran).
-/

namespace Iced

/-- A cached offscreen buffer: allocated device dimensions of the
`MemoryRenderBuffer` plus the `needs_redraw` dirty flag. -/
structure RBuf where
  w : Int
  h : Int
  dirty : Bool
  deriving DecidableEq, Repr

/-- A compositor output: identity tag (outputs are identity-compared in the
source) and its current fractional scale factor. -/
structure Output where
  ident : Nat
  scale : ℚ
  deriving DecidableEq, Repr

/-- Mirror of `iced_native::mouse::Button`; `other` carries a `u8` code. -/
inductive MouseButton where
  | left
  | right
  | middle
  | other (code : Nat)
  deriving DecidableEq, Repr

/-- Mirror of the iced input events queued by the pointer/keyboard/window
handlers in the source. -/
inductive IEvent where
  | cursorEntered
  | cursorMoved (x y : ℚ)
  | cursorLeft
  | buttonPressed (b : MouseButton)
  | buttonReleased (b : MouseButton)
  | wheelLines (x y : ℚ)
  | wheelPixels (x y : ℚ)
  | modifiersChanged (shift alt ctrl logo : Bool)
  | windowFocused
  | windowUnfocused
  deriving DecidableEq, Repr

/-- An entry of the iced runtime queue: either an input event
(`State::queue_event`) or a program message (`State::queue_message`). -/
inductive SEvent (Msg : Type) where
  | event (e : IEvent)
  | message (m : Msg)
  deriving DecidableEq, Repr

/-- Mirror of `iced_native::command::Action`: either a deferred future
(identified by an opaque tag) or any other action. -/
inductive Action (Msg : Type) where
  | future (fut : Nat)
  | other (tag : Nat)
  deriving DecidableEq, Repr

/-- Lookup in the buffer association list (HashMap get). -/
def bufLookup (bufs : List (ℚ × RBuf)) (q : ℚ) : Option RBuf :=
  match bufs with
  | [] => none
  | (k, b) :: rest => if k = q then some b else bufLookup rest q

/-- HashMap `contains_key`. -/
def bufContains (bufs : List (ℚ × RBuf)) (q : ℚ) : Bool :=
  (bufLookup bufs q).isSome

/-- HashMap `insert`: replace the entry for the key if present, else append. -/
def bufInsert (bufs : List (ℚ × RBuf)) (q : ℚ) (b : RBuf) : List (ℚ × RBuf) :=
  match bufs with
  | [] => [(q, b)]
  | (k, b0) :: rest => if k = q then (q, b) :: rest else (k, b0) :: bufInsert rest q b

/-- The key set (as a list) of the buffer map. -/
def bufKeys (bufs : List (ℚ × RBuf)) : List ℚ :=
  bufs.map Prod.fst

/-- Set every buffer's `needs_redraw` flag (the
`for (_buffer, needs_redraw) in buffers.values_mut()` loops). -/
def markAllDirty (bufs : List (ℚ × RBuf)) : List (ℚ × RBuf) :=
  bufs.map (fun p => (p.1, { p.2 with dirty := true }))

/-- `f64::round` on a rational: round half away from zero, as used by
`to_i32_round`. -/
def i32Round (q : ℚ) : Int :=
  if 0 ≤ q then ⌊q + 1/2⌋ else ⌈q - 1/2⌉

/-- Device dimensions computed by the source:
`size.to_f64().to_buffer(scale, Transform::Normal).to_i32_round()`,
i.e. each logical dimension multiplied by the scale and rounded. -/
def devSize (size : Int × Int) (scale : ℚ) : Int × Int :=
  (i32Round ((size.1 : ℚ) * scale), i32Round ((size.2 : ℚ) * scale))

/-- A freshly allocated `MemoryRenderBuffer` for a logical size and scale,
paired with the dirty flag the source sets on allocation (always `true`). -/
def freshBuf (size : Int × Int) (scale : ℚ) : RBuf :=
  { w := (devSize size scale).1, h := (devSize size scale).2, dirty := true }

/-- Whether some currently attached output has the given fractional scale. -/
def scaleLive (outs : List Output) (q : ℚ) : Bool :=
  outs.any (fun o => decide (o.scale = q))

/-- The shared mutable state `IcedElementInternal<P>`; `σ` is the opaque
iced-side program state (program, renderer, debug), `Msg` the program's
message type. `scheduled` records the futures handed to the scheduler,
`rx` the messages pending in the mpsc channel. -/
structure Internal (σ Msg : Type) where
  outputs : List Output
  buffers : List (ℚ × RBuf)
  size : Int × Int
  cursorPos : Option (ℚ × ℚ)
  stQueue : List (SEvent Msg)
  progState : σ
  rx : List Msg
  scheduled : List Nat
  deriving DecidableEq, Repr

/-- The external iced runtime update step
(`iced_native::program::State::update`): from program state, queued
events/messages, bounds and cursor position to a new program state and
`None` (program not updated) or `Some` list of command actions. -/
def Oracle (σ Msg : Type) : Type :=
  σ → List (SEvent Msg) → (Int × Int) → (ℚ × ℚ) → σ × Option (List (Action Msg))

/-- Result of `IcedElementInternal::update`: the new state, the returned
(non-future) actions, and ghost observables `ran` (the iced update step
executed) and `processed` (the queue handed to it; `[]` when it did not run). -/
structure UpdResult (σ Msg : Type) where
  state : Internal σ Msg
  actions : List (Action Msg)
  ran : Bool
  processed : List (SEvent Msg)
  deriving DecidableEq, Repr

/-- `IcedElementInternal::update(force)`: drain the channel into the queue
(each drained message re-forces), return early when not forced, otherwise run
one iced update step, mark every buffer dirty when the program was updated,
schedule future actions and return the rest. -/
def updateStep (oracle : Oracle σ Msg) (force : Bool) (s : Internal σ Msg) :
    UpdResult σ Msg :=
  let queued := s.stQueue ++ s.rx.map SEvent.message
  let s1 : Internal σ Msg := { s with stQueue := queued, rx := [] }
  if force || !(s.rx.isEmpty) then
    let cursor := s1.cursorPos.getD ((-1 : ℚ), (-1 : ℚ))
    let ores := oracle s1.progState s1.stQueue s1.size cursor
    let res := ores.2
    let bufs2 := if res.isSome then markAllDirty s1.buffers else s1.buffers
    let acts := res.getD []
    let futures := acts.filterMap
      (fun a => match a with | .future n => some n | .other _ => none)
    let rest := acts.filter
      (fun a => match a with | .future _ => false | .other _ => true)
    { state := { s1 with
                 progState := ores.1
                 stQueue := []
                 buffers := bufs2
                 scheduled := s1.scheduled ++ futures }
      actions := rest
      ran := true
      processed := s1.stQueue }
  else
    { state := s1, actions := [], ran := false, processed := [] }

/-- `IcedElement::resize`: early return on equal size, otherwise set the new
size, reallocate every buffer at the new device size for its scale, mark all
dirty, and run a forced update. -/
def resize (oracle : Oracle σ Msg) (size : Int × Int) (s : Internal σ Msg) :
    Internal σ Msg :=
  if s.size = size then s
  else
    (updateStep oracle true
      { s with
        size := size
        buffers := s.buffers.map (fun p => (p.1, freshBuf size p.1)) }).state

/-- `IcedElement::force_update`: mark every buffer dirty, then a forced
update pass. -/
def forceUpdate (oracle : Oracle σ Msg) (s : Internal σ Msg) : UpdResult σ Msg :=
  updateStep oracle true { s with buffers := markAllDirty s.buffers }

/-- `PointerTarget::enter`: queue `CursorEntered` then `CursorMoved` at the
event location, record the cursor position, forced update. -/
def pointerEnter (oracle : Oracle σ Msg) (loc : ℚ × ℚ) (s : Internal σ Msg) :
    UpdResult σ Msg :=
  updateStep oracle true
    { s with
      stQueue := s.stQueue ++
        [SEvent.event IEvent.cursorEntered,
         SEvent.event (IEvent.cursorMoved loc.1 loc.2)]
      cursorPos := some loc }

/-- `PointerTarget::motion`: queue `CursorMoved`, record position, forced
update. -/
def pointerMotion (oracle : Oracle σ Msg) (loc : ℚ × ℚ) (s : Internal σ Msg) :
    UpdResult σ Msg :=
  updateStep oracle true
    { s with
      stQueue := s.stQueue ++ [SEvent.event (IEvent.cursorMoved loc.1 loc.2)]
      cursorPos := some loc }

/-- Translation of a host (`u32`) button code performed by
`PointerTarget::button`; the catch-all arm truncates with `as u8`. -/
def translateButton (code : Nat) : MouseButton :=
  if code = 0x110 then MouseButton.left
  else if code = 0x111 then MouseButton.right
  else if code = 0x112 then MouseButton.middle
  else MouseButton.other (code % 256)

/-- Host-side button state (`smithay::backend::input::ButtonState`). -/
inductive HostButtonState where
  | pressed
  | released
  deriving DecidableEq, Repr

/-- The mouse event queued by `PointerTarget::button`. -/
def buttonEvent (st : HostButtonState) (b : MouseButton) : IEvent :=
  match st with
  | .pressed => IEvent.buttonPressed b
  | .released => IEvent.buttonReleased b

/-- `PointerTarget::button`: translate the code, queue the pressed/released
event, forced update. -/
def pointerButton (oracle : Oracle σ Msg) (code : Nat) (st : HostButtonState)
    (s : Internal σ Msg) : UpdResult σ Msg :=
  updateStep oracle true
    { s with stQueue := s.stQueue ++
        [SEvent.event (buttonEvent st (translateButton code))] }

/-- `PointerTarget::axis`: queue a line-based delta when a discrete step is
reported, else a pixel-based delta; forced update. -/
def pointerAxis (oracle : Oracle σ Msg) (discrete : Option (ℚ × ℚ))
    (axis : ℚ × ℚ) (s : Internal σ Msg) : UpdResult σ Msg :=
  let ev := match discrete with
    | some d => IEvent.wheelLines d.1 d.2
    | none => IEvent.wheelPixels axis.1 axis.2
  updateStep oracle true { s with stQueue := s.stQueue ++ [SEvent.event ev] }

/-- `PointerTarget::leave`: queue `CursorLeft` (cursor position untouched),
forced update. -/
def pointerLeave (oracle : Oracle σ Msg) (s : Internal σ Msg) : UpdResult σ Msg :=
  updateStep oracle true
    { s with stQueue := s.stQueue ++ [SEvent.event IEvent.cursorLeft] }

/-- `KeyboardTarget::modifiers`: queue a single modifiers-changed event,
forced update. -/
def keyboardModifiers (oracle : Oracle σ Msg) (shift alt ctrl logo : Bool)
    (s : Internal σ Msg) : UpdResult σ Msg :=
  updateStep oracle true
    { s with stQueue := s.stQueue ++
        [SEvent.event (IEvent.modifiersChanged shift alt ctrl logo)] }

/-- `SpaceElement::set_activate`: queue a window focused/unfocused event,
forced update. -/
def setActivate (oracle : Oracle σ Msg) (activated : Bool) (s : Internal σ Msg) :
    UpdResult σ Msg :=
  updateStep oracle true
    { s with stQueue := s.stQueue ++
        [SEvent.event (if activated then IEvent.windowFocused
                       else IEvent.windowUnfocused)] }

/-- `SpaceElement::output_enter`: allocate a dirty buffer for the output's
scale when absent, then record the output. -/
def outputEnter (o : Output) (s : Internal σ Msg) : Internal σ Msg :=
  let bufs := if bufContains s.buffers o.scale then s.buffers
              else s.buffers ++ [(o.scale, freshBuf s.size o.scale)]
  { s with buffers := bufs, outputs := s.outputs ++ [o] }

/-- The buffer recomputation in `SpaceElement::refresh`: retain buffers whose
scale some attached output still has, then (from the filtered map) allocate a
dirty buffer for every attached scale that is missing. -/
def refreshBufs (outs : List Output) (size : Int × Int)
    (bufs : List (ℚ × RBuf)) : List (ℚ × RBuf) :=
  let kept := bufs.filter (fun p => scaleLive outs p.1)
  let missing := (outs.map (fun o => o.scale)).filter
    (fun q => !(bufContains kept q))
  missing.foldl (fun acc q => bufInsert acc q (freshBuf size q)) kept

/-- `SpaceElement::refresh`. -/
def refresh (s : Internal σ Msg) : Internal σ Msg :=
  { s with buffers := refreshBufs s.outputs s.size s.buffers }

/-- `SpaceElement::output_leave`: drop the output (identity comparison) and
refresh. -/
def outputLeave (o : Output) (s : Internal σ Msg) : Internal σ Msg :=
  refresh { s with outputs := s.outputs.filter (fun x => decide (x ≠ o)) }

/-- An attach/detach call on the element. -/
inductive OutOp where
  | enter (o : Output)
  | leave (o : Output)
  deriving DecidableEq, Repr

/-- Apply a sequence of output attach/detach calls in order. -/
def applyOutOps (ops : List OutOp) (s : Internal σ Msg) : Internal σ Msg :=
  match ops with
  | [] => s
  | OutOp.enter o :: rest => applyOutOps rest (outputEnter o s)
  | OutOp.leave o :: rest => applyOutOps rest (outputLeave o s)

/-- Result of `AsRenderElements::render_elements`: the new state, the
returned render elements (abstracted to the wrapped buffer), and the ghost
observable `drew` (the rasterization closure ran). -/
structure RenderResult (σ Msg : Type) where
  state : Internal σ Msg
  elements : List RBuf
  drew : Bool
  deriving DecidableEq, Repr

/-- `AsRenderElements::render_elements`: non-forced update, look up the
buffer for the requested scale (none: empty result); when it is dirty and the
device size is positive in both dimensions, rasterize and clear the dirty
flag; wrap the buffer as a render element (`wrapOk` abstracts whether
`MemoryRenderBufferRenderElement::from_buffer` succeeds), returning the empty
vector on failure. -/
def renderElements (oracle : Oracle σ Msg) (wrapOk : Bool) (scale : ℚ)
    (s : Internal σ Msg) : RenderResult σ Msg :=
  let s1 := (updateStep oracle false s).state
  match bufLookup s1.buffers scale with
  | none => { state := s1, elements := [], drew := false }
  | some buf =>
    let size := devSize s1.size scale
    let doDraw := buf.dirty && decide (0 < size.1) && decide (0 < size.2)
    let buf2 := if doDraw then { buf with dirty := false } else buf
    let s2 := { s1 with buffers := bufInsert s1.buffers scale buf2 }
    if wrapOk then { state := s2, elements := [buf2], drew := doDraw }
    else { state := s2, elements := [], drew := doDraw }

/-- The fresh `IcedElementInternal` built by `IcedElement::new` before the
initial forced update. -/
def initialInternal (ps : σ) (size : Int × Int) : Internal σ Msg :=
  { outputs := [], buffers := [], size := size, cursorPos := none,
    stQueue := [], progState := ps, rx := [], scheduled := [] }

/-- `IcedElement::new`: `executorOk` abstracts whether
`calloop::futures::executor()` succeeds (on failure `expect` panics, modelled
as `none`); `insertOk` abstracts whether `handle.insert_source` succeeds —
its error is discarded with `.ok()`, so construction still returns an
element, whose registration-token presence is the returned `Bool`. -/
def newElement (oracle : Oracle σ Msg) (executorOk insertOk : Bool) (ps : σ)
    (size : Int × Int) : Option (Internal σ Msg × Bool) :=
  if executorOk then
    some ((updateStep oracle true (initialInternal ps size)).state, insertOk)
  else none

/-- `Drop for IcedElementInternal`: `executor_token.take().unwrap()` — `none`
models the panic when the registration token is absent. -/
def dropInternal (tokenPresent : Bool) : Option Unit :=
  if tokenPresent then some () else none

/-- The buffer-set invariant of the spec: the key set of the buffer map
equals the set of fractional scales of the currently attached outputs. -/
def BufferInvariant (s : Internal σ Msg) : Prop :=
  ∀ q : ℚ, bufContains s.buffers q = scaleLive s.outputs q

/-- Dirty flags survive an operation at a key: if every buffer at the key is
dirty before, every buffer at the key is dirty after. -/
def preservesDirty (f : Internal σ Msg → Internal σ Msg) : Prop :=
  ∀ (s : Internal σ Msg) (q : ℚ),
    (∀ b, bufLookup s.buffers q = some b → b.dirty = true) →
    (∀ b, bufLookup (f s).buffers q = some b → b.dirty = true)

/-- Device dimensions as the spec's words state them: `ceil(size × scale)`
in each component (to be compared with `devSize`, which the source computes
with rounding). -/
def devSizeCeil (size : Int × Int) (scale : ℚ) : Int × Int :=
  (⌈(size.1 : ℚ) * scale⌉, ⌈(size.2 : ℚ) * scale⌉)

/-- Button translation as the claim's words state it: any code other than
the three named ones maps to `other` carrying that same code (to be compared
with `translateButton`, which the source truncates to `u8`). -/
def translateButtonClaimed (code : Nat) : MouseButton :=
  if code = 0x110 then MouseButton.left
  else if code = 0x111 then MouseButton.right
  else if code = 0x112 then MouseButton.middle
  else MouseButton.other code

/-- A trivial concrete oracle over unit program state: never updates the
program. -/
def oracle0 : Oracle Unit Unit :=
  fun ps _ _ _ => (ps, none)

/-- A concrete element state used to exercise the definitions. -/
def sample0 : Internal Unit Unit :=
  { outputs := [], buffers := [], size := (4, 4), cursorPos := none,
    stQueue := [], progState := (), rx := [], scheduled := [] }

/-- A concrete element state with one clean buffer at scale 5/4. -/
def sampleBuf : Internal Unit Unit :=
  { outputs := [{ ident := 0, scale := 5/4 }],
    buffers := [((5/4 : ℚ), { w := 5, h := 5, dirty := false })],
    size := (4, 4), cursorPos := none,
    stQueue := [], progState := (), rx := [], scheduled := [] }

/-- A concrete element state with a dirty buffer at scale 1 and zero width. -/
def sampleDeg : Internal Unit Unit :=
  { outputs := [{ ident := 0, scale := 1 }],
    buffers := [((1 : ℚ), { w := 0, h := 5, dirty := true })],
    size := (0, 5), cursorPos := none,
    stQueue := [], progState := (), rx := [], scheduled := [] }

/-! Shared lemmas about the buffer association list. -/

theorem bufKeys_cons (p : ℚ × RBuf) (l : List (ℚ × RBuf)) :
    bufKeys (p :: l) = p.1 :: bufKeys l :=
  rfl

theorem bufLookup_map_keys (g : ℚ → RBuf → RBuf) (bufs : List (ℚ × RBuf))
    (q : ℚ) :
    bufLookup (bufs.map (fun p => (p.1, g p.1 p.2))) q
      = (bufLookup bufs q).map (g q) := by
  induction bufs with
  | nil => rfl
  | cons p rest ih =>
    obtain ⟨k, b⟩ := p
    by_cases hk : k = q
    · subst hk
      simp [bufLookup]
    · simp [bufLookup, hk, ih]

theorem bufKeys_map_keys (g : ℚ → RBuf → RBuf) (bufs : List (ℚ × RBuf)) :
    bufKeys (bufs.map (fun p => (p.1, g p.1 p.2))) = bufKeys bufs := by
  simp [bufKeys, List.map_map, Function.comp]

theorem bufLookup_markAllDirty (bufs : List (ℚ × RBuf)) (q : ℚ) :
    bufLookup (markAllDirty bufs) q
      = (bufLookup bufs q).map (fun b => { b with dirty := true }) :=
  bufLookup_map_keys (fun _ b => { b with dirty := true }) bufs q

theorem bufKeys_markAllDirty (bufs : List (ℚ × RBuf)) :
    bufKeys (markAllDirty bufs) = bufKeys bufs :=
  bufKeys_map_keys (fun _ b => { b with dirty := true }) bufs

theorem bufLookup_insert_self (bufs : List (ℚ × RBuf)) (q : ℚ) (b : RBuf) :
    bufLookup (bufInsert bufs q b) q = some b := by
  induction bufs with
  | nil => simp [bufInsert, bufLookup]
  | cons p rest ih =>
    obtain ⟨k, b0⟩ := p
    by_cases hk : k = q
    · simp [bufInsert, hk, bufLookup]
    · simp [bufInsert, hk, bufLookup, ih]

theorem bufLookup_insert_ne (bufs : List (ℚ × RBuf)) (k : ℚ) (b : RBuf)
    (q : ℚ) (hk : k ≠ q) :
    bufLookup (bufInsert bufs k b) q = bufLookup bufs q := by
  induction bufs with
  | nil => simp [bufInsert, bufLookup, hk]
  | cons p rest ih =>
    obtain ⟨k0, b0⟩ := p
    by_cases hk0 : k0 = k
    · subst hk0
      simp [bufInsert, bufLookup, hk]
    · simp [bufInsert, hk0, bufLookup, ih]

theorem bufContains_insert (bufs : List (ℚ × RBuf)) (k : ℚ) (b : RBuf)
    (q : ℚ) :
    bufContains (bufInsert bufs k b) q = (decide (q = k) || bufContains bufs q) := by
  by_cases hk : k = q
  · subst hk
    simp [bufContains, bufLookup_insert_self]
  · rw [bufContains, bufLookup_insert_ne bufs k b q hk]
    simp [bufContains, Ne.symm hk]

theorem bufKeys_insert_of_contains (bufs : List (ℚ × RBuf)) (q : ℚ) (b : RBuf)
    (h : bufContains bufs q = true) :
    bufKeys (bufInsert bufs q b) = bufKeys bufs := by
  induction bufs with
  | nil => simp [bufContains, bufLookup] at h
  | cons p rest ih =>
    obtain ⟨k, b0⟩ := p
    by_cases hk : k = q
    · simp [bufInsert, hk, bufKeys_cons]
    · have h2 : bufContains rest q = true := by
        simpa [bufContains, bufLookup, hk] using h
      simp [bufInsert, hk, bufKeys_cons, ih h2]

theorem bufLookup_filter_key (pr : ℚ → Bool) (bufs : List (ℚ × RBuf)) (q : ℚ) :
    bufLookup (bufs.filter (fun p => pr p.1)) q
      = if pr q then bufLookup bufs q else none := by
  induction bufs with
  | nil => simp [bufLookup]
  | cons p rest ih =>
    obtain ⟨k, b⟩ := p
    by_cases hpk : pr k
    · by_cases hk : k = q
      · subst hk
        simp [List.filter_cons, hpk, bufLookup]
      · simp [List.filter_cons, hpk, bufLookup, hk, ih]
    · by_cases hk : k = q
      · subst hk
        simp [List.filter_cons, hpk, bufLookup, ih]
      · simp [List.filter_cons, hpk, bufLookup, hk, ih]

theorem bufContains_append_one (bufs : List (ℚ × RBuf)) (k : ℚ) (b : RBuf)
    (q : ℚ) :
    bufContains (bufs ++ [(k, b)]) q = (bufContains bufs q || decide (k = q)) := by
  induction bufs with
  | nil => by_cases h : k = q <;> simp [bufContains, bufLookup, h]
  | cons p rest ih =>
    obtain ⟨k0, b0⟩ := p
    by_cases hk0 : k0 = q
    · simp [bufContains, bufLookup, hk0]
    · simpa [bufContains, bufLookup, hk0] using ih

theorem bufContains_foldl_insert (mk : ℚ → RBuf) (scales : List ℚ)
    (bufs : List (ℚ × RBuf)) (q : ℚ) :
    bufContains (scales.foldl (fun acc sc => bufInsert acc sc (mk sc)) bufs) q
      = (bufContains bufs q || decide (q ∈ scales)) := by
  induction scales generalizing bufs with
  | nil => simp
  | cons sc rest ih =>
    simp only [List.foldl_cons]
    rw [ih, bufContains_insert]
    by_cases hq : q = sc
    · simp [hq]
    · simp [hq]

/-! Shared lemmas about the update step. -/

theorem updateStep_state_size (oracle : Oracle σ Msg) (force : Bool)
    (s : Internal σ Msg) :
    (updateStep oracle force s).state.size = s.size := by
  unfold updateStep
  split <;> rfl

theorem updateStep_state_cursorPos (oracle : Oracle σ Msg) (force : Bool)
    (s : Internal σ Msg) :
    (updateStep oracle force s).state.cursorPos = s.cursorPos := by
  unfold updateStep
  split <;> rfl

theorem updateStep_state_outputs (oracle : Oracle σ Msg) (force : Bool)
    (s : Internal σ Msg) :
    (updateStep oracle force s).state.outputs = s.outputs := by
  unfold updateStep
  split <;> rfl

theorem updateStep_state_buffers (oracle : Oracle σ Msg) (force : Bool)
    (s : Internal σ Msg) :
    (updateStep oracle force s).state.buffers = s.buffers ∨
    (updateStep oracle force s).state.buffers = markAllDirty s.buffers := by
  unfold updateStep
  split
  · dsimp only
    split
    · exact Or.inr rfl
    · exact Or.inl rfl
  · exact Or.inl rfl

theorem markAllDirty_all_dirty (bufs : List (ℚ × RBuf)) :
    ((markAllDirty bufs).all (fun p => p.2.dirty)) = true := by
  simp [markAllDirty, List.all_map, List.all_eq_true, Function.comp]

/-- C4: with no pending messages in the async channel, the non-forced update
step performs no program update and leaves the entire element state
unchanged, returning no actions (and not running the iced update step). -/
theorem update_noop (oracle : Oracle σ Msg) (s : Internal σ Msg)
    (h : s.rx = []) :
    updateStep oracle false s = ⟨s, [], false, []⟩ := by
  cases s with
  | mk outputs buffers size cursorPos stQueue progState rx scheduled =>
    cases h
    simp [updateStep]

/-- Witness for C4 at a concrete element state with an empty channel. -/
theorem update_noop_witness :
    updateStep oracle0 false sample0 = ⟨sample0, [], false, []⟩ :=
  update_noop oracle0 sample0 rfl

/-- C8: resizing to the element's current size returns early: no buffer is
reallocated, no dirty flag changes, the whole state is unchanged and no
update pass runs (for any behaviour of the iced runtime). -/
theorem resize_same_size_noop (oracle : Oracle σ Msg) (sz : Int × Int)
    (s : Internal σ Msg) (h : s.size = sz) :
    resize oracle sz s = s := by
  unfold resize
  simp [h]

/-- Witness for C8 at a concrete element state. -/
theorem resize_same_size_noop_witness :
    resize oracle0 (4, 4) sampleBuf = sampleBuf :=
  resize_same_size_noop oracle0 (4, 4) sampleBuf rfl

/-- C7: a pointer-enter event at position `loc` hands the iced runtime
exactly the previously queued entries followed by a cursor-entered event and
then a cursor-moved event at `loc` (plus the drained channel messages),
records `loc` as the cursor position, and runs a forced update pass. -/
theorem pointer_enter_framing (oracle : Oracle σ Msg) (loc : ℚ × ℚ)
    (s : Internal σ Msg) :
    (pointerEnter oracle loc s).processed
      = (s.stQueue ++ [SEvent.event IEvent.cursorEntered,
          SEvent.event (IEvent.cursorMoved loc.1 loc.2)]) ++ s.rx.map SEvent.message ∧
    (pointerEnter oracle loc s).state.cursorPos = some loc ∧
    (pointerEnter oracle loc s).ran = true := by
  refine ⟨?_, ?_, ?_⟩ <;> simp [pointerEnter, updateStep]

/-- C10: `force_update` marks every cached buffer dirty and runs one forced
program update pass, even when the message queue is empty. -/
theorem force_update_all_dirty (oracle : Oracle σ Msg) (s : Internal σ Msg) :
    (forceUpdate oracle s).ran = true ∧
    ((forceUpdate oracle s).state.buffers.all (fun p => p.2.dirty)) = true := by
  constructor
  · simp [forceUpdate, updateStep]
  · have hb := updateStep_state_buffers oracle true
      { s with buffers := markAllDirty s.buffers }
    unfold forceUpdate
    rcases hb with hb | hb <;> rw [hb] <;>
      simp [markAllDirty_all_dirty]

/-- C3 counterexample: host button code `0x113` (BTN_SIDE) is truncated by
`as u8` to `0x13`, so the emitted event does not carry the original code,
refuting the claim that any other code `c` yields `other(c)`. -/
theorem button_code_truncation_cex :
    (pointerButton oracle0 0x113 HostButtonState.pressed sample0).processed
      = [SEvent.event (IEvent.buttonPressed (MouseButton.other 0x13))] ∧
    translateButtonClaimed 0x113 = MouseButton.other 0x113 ∧
    translateButton 0x113 ≠ translateButtonClaimed 0x113 := by
  refine ⟨?_, ?_, ?_⟩ <;> decide

/-- C3 (amended): a pointer-button event queues exactly one pressed/released
mouse event according to the host button state, whose button is `0x110` →
left, `0x111` → right, `0x112` → middle, and any other code `c` →
`other(c mod 256)` (the `as u8` truncation), followed by a forced update. -/
theorem button_mapping (oracle : Oracle σ Msg) (code : Nat)
    (st : HostButtonState) (s : Internal σ Msg) :
    (pointerButton oracle code st s).processed
      = (s.stQueue ++ [SEvent.event (buttonEvent st (translateButton code))])
          ++ s.rx.map SEvent.message ∧
    (pointerButton oracle code st s).ran = true ∧
    translateButton code
      = (if code = 0x110 then MouseButton.left
         else if code = 0x111 then MouseButton.right
         else if code = 0x112 then MouseButton.middle
         else MouseButton.other (code % 256)) := by
  refine ⟨?_, ?_, rfl⟩ <;> simp [pointerButton, updateStep]

/-! Shared lemmas about scales, refresh and the buffer-set invariant. -/

theorem scaleLive_append_one (outs : List Output) (o : Output) (q : ℚ) :
    scaleLive (outs ++ [o]) q = (scaleLive outs q || decide (o.scale = q)) := by
  simp [scaleLive]

theorem mem_scales_iff (outs : List Output) (q : ℚ) :
    q ∈ outs.map (fun o => o.scale) ↔ scaleLive outs q = true := by
  simp [scaleLive, List.any_eq_true, List.mem_map]

theorem refreshBufs_contains (outs : List Output) (size : Int × Int)
    (bufs : List (ℚ × RBuf)) (q : ℚ) :
    bufContains (refreshBufs outs size bufs) q = scaleLive outs q := by
  simp only [refreshBufs]
  rw [bufContains_foldl_insert]
  have hkept : bufContains (bufs.filter (fun p => scaleLive outs p.1)) q
      = (scaleLive outs q && bufContains bufs q) := by
    rw [bufContains, bufLookup_filter_key]
    by_cases h : scaleLive outs q <;> simp [h, bufContains]
  rw [hkept]
  by_cases hl : scaleLive outs q = true
  · by_cases hc : bufContains bufs q = true
    · simp [hl, hc]
    · have hc0 : bufContains bufs q = false := by
        simpa using hc
      have hm : q ∈ (outs.map (fun o => o.scale)).filter
          (fun x => !(bufContains (bufs.filter (fun p => scaleLive outs p.1)) x)) := by
        refine List.mem_filter.mpr ⟨(mem_scales_iff outs q).mpr hl, ?_⟩
        simp [hkept, hl, hc0]
      simp [hl, hc0, hm]
  · have hl0 : scaleLive outs q = false := by
      simpa using hl
    have hm : q ∉ (outs.map (fun o => o.scale)).filter
        (fun x => !(bufContains (bufs.filter (fun p => scaleLive outs p.1)) x)) := by
      intro hmem
      exact hl ((mem_scales_iff outs q).mp (List.mem_filter.mp hmem).1)
    simp [hl0, hm]

theorem refresh_invariant (s : Internal σ Msg) : BufferInvariant (refresh s) :=
  fun q => refreshBufs_contains s.outputs s.size s.buffers q

theorem outputLeave_invariant (o : Output) (s : Internal σ Msg) :
    BufferInvariant (outputLeave o s) := by
  unfold outputLeave
  exact refresh_invariant _

theorem outputEnter_invariant (o : Output) (s : Internal σ Msg)
    (h : BufferInvariant s) : BufferInvariant (outputEnter o s) := by
  intro q
  unfold outputEnter
  dsimp only
  rw [scaleLive_append_one]
  by_cases hc : bufContains s.buffers o.scale = true
  · rw [if_pos hc]
    rw [h q]
    by_cases hS : o.scale = q
    · subst hS
      have hlive : scaleLive s.outputs o.scale = true := by
        rw [← h o.scale]; exact hc
      simp [hlive]
    · simp [hS]
  · rw [if_neg hc, bufContains_append_one, h q]

/-- C1: starting from any state satisfying the buffer-set invariant (in
particular the freshly constructed element), after any sequence of
`output_enter` / `output_leave` calls the key set of the buffer map equals
exactly the set of fractional scales of the attached outputs. -/
theorem buffer_set_invariant (ops : List OutOp) (s : Internal σ Msg)
    (h : BufferInvariant s) : BufferInvariant (applyOutOps ops s) := by
  induction ops generalizing s with
  | nil => exact h
  | cons op rest ih =>
    cases op with
    | enter o => exact ih (outputEnter o s) (outputEnter_invariant o s h)
    | leave o => exact ih (outputLeave o s) (outputLeave_invariant o s)

/-- Witness for C1: the spec scenario — attach an output at scale 1, attach
another at scale 2, detach the first — starting from the fresh element. -/
theorem buffer_set_invariant_witness :
    BufferInvariant (applyOutOps
      [OutOp.enter { ident := 0, scale := 1 },
       OutOp.enter { ident := 1, scale := 2 },
       OutOp.leave { ident := 0, scale := 1 }] sample0) :=
  buffer_set_invariant _ sample0 (fun _ => rfl)

/-! Shared lemmas for resize. -/

theorem resize_lookup (oracle : Oracle σ Msg) (sz : Int × Int)
    (s : Internal σ Msg) (h : s.size ≠ sz) (q : ℚ) :
    bufLookup (resize oracle sz s).buffers q
      = (bufLookup s.buffers q).map (fun _ => freshBuf sz q) := by
  unfold resize
  rw [if_neg h]
  have hm : bufLookup (s.buffers.map (fun p => (p.1, freshBuf sz p.1))) q
      = (bufLookup s.buffers q).map (fun _ => freshBuf sz q) :=
    bufLookup_map_keys (fun k _ => freshBuf sz k) s.buffers q
  rcases updateStep_state_buffers oracle true
      { s with size := sz,
               buffers := s.buffers.map (fun p => (p.1, freshBuf sz p.1)) }
    with hb | hb
  · rw [hb]
    exact hm
  · rw [hb]
    show bufLookup (markAllDirty (s.buffers.map (fun p => (p.1, freshBuf sz p.1)))) q
        = (bufLookup s.buffers q).map (fun _ => freshBuf sz q)
    rw [bufLookup_markAllDirty, hm]
    cases bufLookup s.buffers q <;> rfl

/-- C2 counterexample: resizing the 4×4 element (one buffer tracked at scale
5/4) to 5×5 allocates a 6×6 buffer — the source rounds 5 × 5/4 = 6.25 to 6 —
while the claimed `ceil(new_size × scale)` sizing demands 7×7. -/
theorem resize_round_not_ceil_cex :
    bufLookup ((resize oracle0 (5, 5) sampleBuf).buffers) (5/4)
      = some { w := 6, h := 6, dirty := true } ∧
    devSizeCeil (5, 5) (5/4) = (7, 7) ∧
    devSize (5, 5) (5/4) ≠ devSizeCeil (5, 5) (5/4) := by
  have h1 : devSize (5, 5) (5/4) = (6, 6) := by
    norm_num [devSize, i32Round]
  have h2 : devSizeCeil (5, 5) (5/4) = (7, 7) := by
    norm_num [devSizeCeil, Int.ceil_eq_iff]
  refine ⟨?_, h2, ?_⟩
  · rw [resize_lookup oracle0 (5, 5) sampleBuf (by decide) (5/4)]
    have h3 : freshBuf (5, 5) (5/4) = { w := 6, h := 6, dirty := true } := by
      simp [freshBuf, h1]
    simp [sampleBuf, bufLookup, h3]
  · rw [h1, h2]
    decide

/-- C2 (amended): resizing to a different size reallocates every tracked
buffer (and only those) with device dimensions `round(new_size × scale)` for
its scale key — the source rounds via `to_i32_round`, it does not ceil — and
every reallocated buffer is dirty. -/
theorem resize_invalidates (oracle : Oracle σ Msg) (sz : Int × Int)
    (s : Internal σ Msg) (h : s.size ≠ sz) (q : ℚ) :
    bufLookup (resize oracle sz s).buffers q
      = (bufLookup s.buffers q).map (fun _ => freshBuf sz q) ∧
    (freshBuf sz q).dirty = true ∧
    (freshBuf sz q).w = (devSize sz q).1 ∧
    (freshBuf sz q).h = (devSize sz q).2 :=
  ⟨resize_lookup oracle sz s h q, rfl, rfl, rfl⟩

/-- Witness for C2 (amended): the concrete resize from the counterexample,
evaluated at scale 5/4. -/
theorem resize_invalidates_witness :
    bufLookup ((resize oracle0 (5, 5) sampleBuf).buffers) (5/4)
      = (bufLookup sampleBuf.buffers (5/4)).map (fun _ => freshBuf (5, 5) (5/4)) ∧
    (freshBuf (5, 5) (5/4)).dirty = true ∧
    (freshBuf (5, 5) (5/4)).w = (devSize (5, 5) (5/4)).1 ∧
    (freshBuf (5, 5) (5/4)).h = (devSize (5, 5) (5/4)).2 :=
  resize_invalidates oracle0 (5, 5) sampleBuf (by decide) (5/4)

/-! Shared lemmas for the render path and dirty-flag preservation. -/

theorem updateStep_bufKeys (oracle : Oracle σ Msg) (force : Bool)
    (s : Internal σ Msg) :
    bufKeys (updateStep oracle force s).state.buffers = bufKeys s.buffers := by
  rcases updateStep_state_buffers oracle force s with hb | hb
  · rw [hb]
  · rw [hb]
    exact bufKeys_markAllDirty s.buffers

theorem updateStep_contains (oracle : Oracle σ Msg) (force : Bool)
    (s : Internal σ Msg) (q : ℚ) :
    bufContains (updateStep oracle force s).state.buffers q
      = bufContains s.buffers q := by
  rcases updateStep_state_buffers oracle force s with hb | hb
  · rw [hb]
  · rw [hb]
    simp only [bufContains, bufLookup_markAllDirty]
    cases bufLookup s.buffers q <;> rfl

theorem bufLookup_foldl_insert (mk : ℚ → RBuf) (scales : List ℚ)
    (bufs : List (ℚ × RBuf)) (q : ℚ) :
    bufLookup (scales.foldl (fun acc sc => bufInsert acc sc (mk sc)) bufs) q
      = if q ∈ scales then some (mk q) else bufLookup bufs q := by
  induction scales generalizing bufs with
  | nil => simp
  | cons sc rest ih =>
    simp only [List.foldl_cons]
    rw [ih]
    by_cases hr : q ∈ rest
    · simp [hr]
    · by_cases hs : q = sc
      · subst hs
        simp [hr, bufLookup_insert_self]
      · simp [hr, hs, bufLookup_insert_ne _ _ _ _ (Ne.symm hs)]

theorem bufLookup_append_single (bufs : List (ℚ × RBuf)) (k : ℚ) (b : RBuf)
    (q : ℚ) :
    bufLookup (bufs ++ [(k, b)]) q
      = (match bufLookup bufs q with
         | some b0 => some b0
         | none => if k = q then some b else none) := by
  induction bufs with
  | nil => simp [bufLookup]
  | cons p rest ih =>
    obtain ⟨k0, b0⟩ := p
    by_cases hk0 : k0 = q
    · simp [bufLookup, hk0]
    · simp [bufLookup, hk0, ih]

theorem dirtyAt_markAllDirty (bufs : List (ℚ × RBuf)) (q : ℚ) :
    ∀ b, bufLookup (markAllDirty bufs) q = some b → b.dirty = true := by
  intro b hb
  rw [bufLookup_markAllDirty] at hb
  cases hcase : bufLookup bufs q with
  | none => rw [hcase] at hb; cases hb
  | some b0 => rw [hcase] at hb; cases hb; rfl

theorem preservesDirty_updateStep (oracle : Oracle σ Msg) (force : Bool) :
    preservesDirty (fun t => (updateStep oracle force t).state) := by
  intro s q h b hb
  dsimp only at hb
  rcases updateStep_state_buffers oracle force s with hbuf | hbuf
  · rw [hbuf] at hb
    exact h b hb
  · rw [hbuf] at hb
    exact dirtyAt_markAllDirty s.buffers q b hb

theorem preservesDirty_resize (oracle : Oracle σ Msg) (sz : Int × Int) :
    preservesDirty (resize oracle sz) := by
  intro s q h b hb
  by_cases hsz : s.size = sz
  · rw [show resize oracle sz s = s from by unfold resize; simp [hsz]] at hb
    exact h b hb
  · rw [resize_lookup oracle sz s hsz q] at hb
    cases hcase : bufLookup s.buffers q with
    | none => rw [hcase] at hb; cases hb
    | some b0 => rw [hcase] at hb; cases hb; rfl

theorem preservesDirty_forceUpdate (oracle : Oracle σ Msg) :
    preservesDirty (fun t => (forceUpdate oracle t).state) := by
  intro s q h b hb
  dsimp only at hb
  exact preservesDirty_updateStep oracle true
    { s with buffers := markAllDirty s.buffers } q
    (dirtyAt_markAllDirty s.buffers q) b hb

theorem preservesDirty_outputEnter (o : Output) :
    preservesDirty (@outputEnter σ Msg o) := by
  intro s q h b hb
  unfold outputEnter at hb
  dsimp only at hb
  by_cases hc : bufContains s.buffers o.scale = true
  · rw [if_pos hc] at hb
    exact h b hb
  · rw [if_neg hc, bufLookup_append_single] at hb
    cases hcase : bufLookup s.buffers q with
    | none =>
      rw [hcase] at hb
      by_cases ho : o.scale = q
      · rw [if_pos ho] at hb
        cases hb
        rfl
      · rw [if_neg ho] at hb
        cases hb
    | some b0 =>
      rw [hcase] at hb
      cases hb
      exact h _ hcase

theorem refreshBufs_dirty (outs : List Output) (size : Int × Int)
    (bufs : List (ℚ × RBuf)) (q : ℚ)
    (h : ∀ b, bufLookup bufs q = some b → b.dirty = true) :
    ∀ b, bufLookup (refreshBufs outs size bufs) q = some b → b.dirty = true := by
  intro b hb
  simp only [refreshBufs] at hb
  rw [bufLookup_foldl_insert] at hb
  split at hb
  · cases hb; rfl
  · rw [bufLookup_filter_key] at hb
    split at hb
    · exact h b hb
    · cases hb

theorem preservesDirty_refresh :
    preservesDirty (@refresh σ Msg) := by
  intro s q h b hb
  exact refreshBufs_dirty s.outputs s.size s.buffers q h b hb

theorem preservesDirty_outputLeave (o : Output) :
    preservesDirty (@outputLeave σ Msg o) := by
  intro s q h b hb
  unfold outputLeave at hb
  exact refreshBufs_dirty _ _ _ q h b hb

/-- C5: a render request for a scale with no cached buffer, or one in which
wrapping the buffer as a render element fails, returns the empty vector and
leaves the key set of the buffer map unchanged; the render path is total
(no error result exists). -/
theorem render_elements_safe (oracle : Oracle σ Msg) (wrapOk : Bool)
    (scale : ℚ) (s : Internal σ Msg)
    (h : bufContains s.buffers scale = false ∨ wrapOk = false) :
    (renderElements oracle wrapOk scale s).elements = [] ∧
    bufKeys (renderElements oracle wrapOk scale s).state.buffers
      = bufKeys s.buffers := by
  simp only [renderElements]
  cases hlook : bufLookup (updateStep oracle false s).state.buffers scale with
  | none =>
    simp only [hlook]
    exact ⟨by trivial, updateStep_bufKeys oracle false s⟩
  | some buf =>
    have hcont : bufContains s.buffers scale = true := by
      rw [← updateStep_contains oracle false s scale, bufContains, hlook]
      rfl
    have hw : wrapOk = false := by
      rcases h with h | h
      · rw [hcont] at h; cases h
      · exact h
    subst hw
    simp only [hlook]
    have hc1 : bufContains (updateStep oracle false s).state.buffers scale = true := by
      rw [bufContains, hlook]; rfl
    refine ⟨rfl, ?_⟩
    show bufKeys (bufInsert (updateStep oracle false s).state.buffers scale
        (if buf.dirty
            && decide (0 < (devSize (updateStep oracle false s).state.size scale).1)
            && decide (0 < (devSize (updateStep oracle false s).state.size scale).2)
         then { buf with dirty := false } else buf))
      = bufKeys s.buffers
    rw [bufKeys_insert_of_contains _ _ _ hc1, updateStep_bufKeys]

/-- Witness for C5 at a concrete render request for scale 3, which no
attached output has. -/
theorem render_elements_safe_witness :
    (renderElements oracle0 true 3 sampleBuf).elements = [] ∧
    bufKeys (renderElements oracle0 true 3 sampleBuf).state.buffers
      = bufKeys sampleBuf.buffers :=
  render_elements_safe oracle0 true 3 sampleBuf
    (Or.inl (by norm_num [sampleBuf, bufContains, bufLookup]))

/-- C6: a dirty buffer whose device size is degenerate (zero width or
height) is not rasterized by a render request and stays dirty; and every
other operation of the element (update steps, resize, force-update, output
attach/detach, refresh) preserves dirty flags — a dirty flag is cleared only
by a completed draw inside `render_elements`. -/
theorem dirty_cleared_only_by_draw (oracle : Oracle σ Msg) (wrapOk : Bool)
    (scale : ℚ) (s : Internal σ Msg) (b : RBuf)
    (hb : bufLookup s.buffers scale = some b) (hd : b.dirty = true)
    (hdeg : (devSize s.size scale).1 = 0 ∨ (devSize s.size scale).2 = 0) :
    (renderElements oracle wrapOk scale s).drew = false ∧
    (∃ b2, bufLookup (renderElements oracle wrapOk scale s).state.buffers scale
        = some b2 ∧ b2.dirty = true) ∧
    (∀ (o : Oracle σ Msg) (f : Bool),
      preservesDirty (fun t => (updateStep o f t).state)) ∧
    (∀ (o : Oracle σ Msg) (sz : Int × Int), preservesDirty (resize o sz)) ∧
    (∀ o : Oracle σ Msg, preservesDirty (fun t => (forceUpdate o t).state)) ∧
    (∀ o1 : Output, preservesDirty (@outputEnter σ Msg o1)) ∧
    (∀ o1 : Output, preservesDirty (@outputLeave σ Msg o1)) ∧
    preservesDirty (@refresh σ Msg) := by
  have hstep : ∃ b1, bufLookup (updateStep oracle false s).state.buffers scale
      = some b1 ∧ b1.dirty = true := by
    rcases updateStep_state_buffers oracle false s with hbuf | hbuf
    · exact ⟨b, by rw [hbuf]; exact hb, hd⟩
    · refine ⟨{ b with dirty := true }, ?_, rfl⟩
      rw [hbuf, bufLookup_markAllDirty, hb]
      rfl
  obtain ⟨b1, hb1, hd1⟩ := hstep
  have hdeg1 : (devSize (updateStep oracle false s).state.size scale).1 = 0 ∨
      (devSize (updateStep oracle false s).state.size scale).2 = 0 := by
    rw [updateStep_state_size]
    exact hdeg
  have hdo : (b1.dirty
      && decide (0 < (devSize (updateStep oracle false s).state.size scale).1)
      && decide (0 < (devSize (updateStep oracle false s).state.size scale).2))
      = false := by
    rcases hdeg1 with h0 | h0 <;> rw [h0] <;> simp
  refine ⟨?_, ?_, preservesDirty_updateStep, preservesDirty_resize,
    preservesDirty_forceUpdate, preservesDirty_outputEnter,
    preservesDirty_outputLeave, preservesDirty_refresh⟩
  · simp only [renderElements, hb1]
    rw [hdo]
    cases wrapOk <;> simp
  · simp only [renderElements, hb1]
    rw [hdo]
    cases wrapOk <;>
      exact ⟨b1, by simp [bufLookup_insert_self], hd1⟩

/-- Witness for C6: the dirty zero-width buffer of `sampleDeg` is not drawn. -/
theorem dirty_cleared_only_by_draw_witness :
    (renderElements oracle0 true 1 sampleDeg).drew = false :=
  (dirty_cleared_only_by_draw oracle0 true 1 sampleDeg
    { w := 0, h := 5, dirty := true }
    (by simp [sampleDeg, bufLookup]) rfl
    (Or.inl (by norm_num [sampleDeg, devSize, i32Round]))).1

/-- C9 evidence: when `calloop::futures::executor()` fails, the `expect`
aborts construction; but when `handle.insert_source` fails, the error is
discarded by `.ok()`, so construction returns an element whose registration
token is absent — contradicting the claim — and the `Drop` handler's
`unwrap` of that token panics. -/
theorem construction_registration_gap :
    @newElement Unit Unit oracle0 false true () (4, 4) = none ∧
    (@newElement Unit Unit oracle0 true false () (4, 4)).isSome
      = true ∧
    Option.map Prod.snd
        (@newElement Unit Unit oracle0 true false () (4, 4))
      = some false ∧
    dropInternal false = none :=
  ⟨rfl, rfl, rfl, rfl⟩

end Iced
